import Mathlib

/-!
Verification of the proxy-synthetic-check probe.

The program repeatedly issues HTTP requests through configured SOCKS5/HTTP
proxies and records Prometheus metrics.  This file shallowly embeds the
relevant parts of the source:

* `internal/proxy` (src/unnamed/part_001, first section): `CreateTransport`,
  `MaskAuth`, both built on Go's `net/url.Parse`;
* `internal/request` (src/unnamed/part_001, second section): `CategorizeError`
  and the metric-recording flow of `Make`;
* `internal/metrics` (src/internal/metrics/metrics.go): `collectLabelKeys`
  and `New`;
* `internal/config` (src/internal/config/config.go): `GetLatencyBuckets`;
* `internal/runner` (src/internal/runner/runner.go): `Run`, whose
  `log.Fatalf` on transport-build failure exits the whole process.

`net/url.Parse` is Go standard library, not repository code; it is modelled
faithfully on the fragment these inputs exercise: absolute URLs
`scheme://[userinfo@]host[:port][/path]`, ASCII, without percent-escapes in
userinfo or host (a `%` character there is treated as invalid; Go additionally
accepts certain escapes).  Userinfo and password fields are kept raw
(undecoded); only parse success/failure and the `Host` field feed the claims,
and on the escape-free fragment the model agrees with Go exactly.
Go `float64` bucket boundaries are modelled as the rationals their source
literals denote, and Go maps as association lists (first binding wins).
-/

namespace ProxyCheck

/-! Character classes of the Go `net/url` parser (ASCII). -/

/-- ASCII letter, as in Go `getScheme`. -/
def isAlpha (c : Char) : Bool :=
  decide ('a' ≤ c ∧ c ≤ 'z') || decide ('A' ≤ c ∧ c ≤ 'Z')

/-- ASCII digit. -/
def isDigit (c : Char) : Bool :=
  decide ('0' ≤ c ∧ c ≤ '9')

/-- Characters allowed after the first position of a URL scheme. -/
def isSchemeChar (c : Char) : Bool :=
  isAlpha c || isDigit c || c == '+' || c == '-' || c == '.'

/-- Hexadecimal digit (for percent-escape syntax in paths). -/
def isHexDigit (c : Char) : Bool :=
  isDigit c || decide ('a' ≤ c ∧ c ≤ 'f') || decide ('A' ≤ c ∧ c ≤ 'F')

/-- Characters Go accepts unescaped in the host component (`encodeHost` safe
set: unreserved, sub-delims, `:[]<>` and the quote), plus non-ASCII code
points, which Go passes through unchecked.  Code points 39 and 34 are the
apostrophe and the double quote. -/
def isHostChar (c : Char) : Bool :=
  isAlpha c || isDigit c ||
  c == '-' || c == '.' || c == '_' || c == '~' || c == '!' || c == '$' ||
  c == '&' || c.toNat == 39 || c == '(' || c == ')' || c == '*' || c == '+' ||
  c == ',' || c == ';' || c == '=' || c == ':' || c == '[' || c == ']' ||
  c == '<' || c == '>' || c.toNat == 34 || decide (128 ≤ c.toNat)

/-- Characters Go's `validUserinfo` accepts (unreserved, sub-delims, `:`,
`@`; code point 39 is the apostrophe).  Go additionally allows `%`
introducing an escape; escapes are outside this model. -/
def isUserinfoChar (c : Char) : Bool :=
  isAlpha c || isDigit c ||
  c == '-' || c == '.' || c == '_' || c == ':' || c == '~' || c == '!' ||
  c == '$' || c == '&' || c.toNat == 39 || c == '(' || c == ')' || c == '*' ||
  c == '+' || c == ',' || c == ';' || c == '=' || c == '@'

/-! List utilities mirroring `strings.Cut`, `strings.LastIndex`. -/

/-- Split at the first occurrence of `sep`, like Go `strings.Cut`: returns
(before, after); when `sep` is absent, (whole, []). -/
def cutFirst (sep : Char) : List Char → List Char × List Char
  | [] => ([], [])
  | c :: cs =>
    if c == sep then ([], cs)
    else
      let p := cutFirst sep cs
      (c :: p.1, p.2)

/-- Split at the last occurrence of `sep` (Go `strings.LastIndex`): `none`
when absent, otherwise (before, after). -/
def splitLast (sep : Char) : List Char → Option (List Char × List Char)
  | [] => none
  | c :: cs =>
    match splitLast sep cs with
    | some p => some (c :: p.1, p.2)
    | none => if c == sep then some ([], cs) else none

/-- Every `%` is followed by two hex digits (Go `unescape` success on the
escape syntax; decoded bytes are not materialised by this model). -/
def validEscapes : List Char → Bool
  | [] => true
  | c :: cs =>
    if c == '%' then
      match cs with
      | a :: b :: rest => isHexDigit a && isHexDigit b && validEscapes rest
      | _ => false
    else validEscapes cs

/-- Go `validOptionalPort`: empty, or `:` followed by decimal digits only. -/
def validOptionalPort : List Char → Bool
  | [] => true
  | ':' :: rest => rest.all isDigit
  | _ => false

/-! The `net/url.Parse` model. -/

/-- Go `parseHost`: validates an optional port after the last `:` (after `]`
for a bracketed IPv6 literal) and the host character set; on success the host
is returned unchanged (no escapes in the modelled fragment, so no decoding). -/
def parseHost (l : List Char) : Option (List Char) :=
  if l.head? = some '[' then
    match splitLast ']' l with
    | none => none
    | some p =>
      if validOptionalPort p.2 && l.all isHostChar then some l else none
  else
    match splitLast ':' l with
    | none => if l.all isHostChar then some l else none
    | some p =>
      if validOptionalPort (':' :: p.2) && l.all isHostChar then some l
      else none

/-- Go `parseAuthority`: split at the last `@`; parse host; validate userinfo
characters; split username/password at the first `:`.  Returns
(username?, password?, host). -/
def parseAuthority (a : List Char) :
    Option (Option (List Char) × Option (List Char) × List Char) :=
  match splitLast '@' a with
  | none => (parseHost a).map (fun h => (none, none, h))
  | some p =>
    match parseHost p.2 with
    | none => none
    | some h =>
      if p.1.all isUserinfoChar then
        if p.1.contains ':' then
          some (some (cutFirst ':' p.1).1, some (cutFirst ':' p.1).2, h)
        else some (some p.1, none, h)
      else none

/-- Result of Go `getScheme`: a hard error (leading `:`), no scheme (an
invalid character before any `:`, or no `:` at all), or a scheme plus the
remainder after the `:`. -/
inductive SchemeResult where
  | schemeErr
  | noScheme
  | found (sch rest : List Char)
  deriving DecidableEq

/-- Scanner of Go `getScheme`; the flag records whether we are at the first
character. -/
def getSchemeAux : List Char → Bool → SchemeResult
  | [], _ => .noScheme
  | c :: cs, first =>
    if isAlpha c then
      match getSchemeAux cs false with
      | .found sch rest => .found (c :: sch) rest
      | r => r
    else if isDigit c || c == '+' || c == '-' || c == '.' then
      if first then .noScheme
      else
        match getSchemeAux cs false with
        | .found sch rest => .found (c :: sch) rest
        | r => r
    else if c == ':' then
      if first then .schemeErr else .found [] cs
    else .noScheme

/-- Go `getScheme`. -/
def getScheme (l : List Char) : SchemeResult :=
  getSchemeAux l true

/-- ASCII lowercasing of a scheme (Go `strings.ToLower`; ASCII fragment). -/
def toLowerList (l : List Char) : List Char :=
  l.map Char.toLower

/-- Go `strings.ToLower` over `String` (ASCII fragment). -/
def toLowerStr (s : String) : String :=
  String.mk (toLowerList s.data)

/-- A non-empty list that Go `getScheme` accepts wholesale as a scheme:
a letter followed by letters, digits, `+`, `-`, `.`. -/
def isValidScheme : List Char → Bool
  | [] => false
  | c :: cs => isAlpha c && cs.all isSchemeChar

/-- The fields of Go's `url.URL` that this program reads: `Scheme`,
`User` (username and optional password, kept raw) and `Host`. -/
structure GoURL where
  scheme : List Char
  username : Option (List Char)
  password : Option (List Char)
  host : List Char
  deriving DecidableEq

/-- The authority branch of Go `url.parse`: the authority is `body` up to the
first `/`, the rest is the path, whose escape syntax `setPath` checks. -/
def parseAuthorityAndPath (sch body : List Char) : Option GoURL :=
  match parseAuthority (body.takeWhile (fun c => c != '/')) with
  | none => none
  | some u =>
    if validEscapes (body.dropWhile (fun c => c != '/')) then
      some ⟨sch, u.1, u.2.1, u.2.2⟩
    else none

/-- Continuation of Go `url.parse` after scheme extraction and query cut: a
rest not starting with `/` is opaque (scheme present) or a rootless path
(scheme absent; its first segment must not contain `:`); `//` (but, with no
scheme, not `///`) introduces the authority; otherwise the rest is a path. -/
def parseAfterQuery (sch rest : List Char) : Option GoURL :=
  if rest.head? ≠ some '/' then
    if sch ≠ [] then some ⟨sch, none, none, []⟩
    else if (rest.takeWhile (fun c => c != '/')).contains ':' then none
    else if validEscapes rest then some ⟨[], none, none, []⟩
    else none
  else
    if (sch ≠ [] ∨ rest.take 3 ≠ ['/', '/', '/']) ∧ rest.take 2 = ['/', '/'] then
      parseAuthorityAndPath sch (rest.drop 2)
    else if validEscapes rest then some ⟨sch, none, none, []⟩
    else none

/-- Continuation of Go `url.parse` after scheme extraction: cut the query at
the first `?`, then continue. -/
def parseAfterScheme (sch rest0 : List Char) : Option GoURL :=
  parseAfterQuery sch (cutFirst '?' rest0).1

/-- Go `url.Parse` on the modelled fragment: cut the fragment at the first
`#`, extract the scheme, then parse the remainder. -/
def goParseList (raw : List Char) : Option GoURL :=
  match getScheme (cutFirst '#' raw).1 with
  | .schemeErr => none
  | .noScheme => parseAfterScheme [] (cutFirst '#' raw).1
  | .found sch rest => parseAfterScheme (toLowerList sch) rest

/-- Go `url.Parse` over `String`. -/
def goParse (s : String) : Option GoURL :=
  goParseList s.data

/-! `internal/proxy` (src/unnamed/part_001): `MaskAuth`, `CreateTransport`. -/

/-- MaskAuth hides the password in a URL for safe output
(src/unnamed/part_001 lines 62-73): parse `protocol + "://" + proxyString`;
on error return `proxyString` unchanged; otherwise return just `u.Host`
(the assignment `u.User = url.User(u.User.Username())` does not affect the
returned `u.Host`). -/
def MaskAuth (protocol proxyString : String) : String :=
  match goParse (protocol ++ "://" ++ proxyString) with
  | none => proxyString
  | some u => String.mk u.host

/-- The transport object built by `CreateTransport`: a SOCKS5 dialer bound to
`proxyURI.Host` with optional credentials, or an HTTP proxy transport bound
to the parsed URL. -/
inductive Transport where
  | socks5 (addr : List Char) (auth : Option (List Char × List Char))
  | httpProxy (u : GoURL)
  deriving DecidableEq

/-- CreateTransport (src/unnamed/part_001 lines 15-59): parse
`protocol + "://" + proxyString`; switch on the lowercased protocol; for
`socks5` fail when the host is empty, else build the dialer (for auth, Go
reads `password, _ := User.Password()`, so a missing password becomes `""`);
for `http` wrap the URL; otherwise fail with the unsupported-protocol error. -/
def CreateTransport (protocol proxyString : String) : Except String Transport :=
  match goParse (protocol ++ "://" ++ proxyString) with
  | none => .error "url parse error"
  | some u =>
    match toLowerStr protocol with
    | "socks5" =>
      if u.host = [] then .error "proxy address (host:port) is not specified"
      else .ok (.socks5 u.host (u.username.map fun un => (un, u.password.getD [])))
    | "http" => .ok (.httpProxy u)
    | _ => .error ("unsupported proxy protocol: " ++ protocol)

/-! `internal/config` (src/internal/config/config.go). -/

/-- Proxy represents a single proxy configuration (config.go lines 21-26).
`labels` models the Go `map[string]string` as an association list. -/
structure Proxy where
  protocol : String
  proxy : String
  targetURL : String
  labels : List (String × String)
  deriving DecidableEq

/-- ProxyConfig (config.go lines 11-18); float64 bucket boundaries are
modelled as the rationals their literals denote; an absent YAML list is the
empty list. -/
structure ProxyConfig where
  defaultTargetURL : String
  requestInterval : Int
  requestTimeout : Int
  metricsPort : Int
  latencyBuckets : List ℚ
  proxies : List Proxy

/-- The default bucket ladder of `GetLatencyBuckets` (config.go lines 62-75). -/
def defaultLatencyBuckets : List ℚ :=
  [0.05, 0.1, 0.2, 0.3, 0.4, 0.5, 0.75, 1.0, 1.5, 2.0, 5.0, 10.0]

/-- GetLatencyBuckets (config.go lines 57-76): the configured list when
non-empty, otherwise the default ladder. -/
def GetLatencyBuckets (c : ProxyConfig) : List ℚ :=
  if 0 < c.latencyBuckets.length then c.latencyBuckets
  else defaultLatencyBuckets

/-! `internal/metrics` (src/internal/metrics/metrics.go). -/

/-- The nested loop of `collectLabelKeys` (metrics.go lines 61-65): all label
keys of all proxies, in configuration order.  Go inserts them into a set and
iterates that set in unspecified order; the final `sort.Strings` makes the
result independent of that order, so deduplicating and sorting this list is a
faithful model. -/
def collectKeysRaw : List Proxy → List String
  | [] => []
  | p :: ps => p.labels.map Prod.fst ++ collectKeysRaw ps

/-- Lexicographic comparison of character lists, as Go `sort.Strings`
compares strings (Go compares bytes; on the ASCII fragment, and indeed on
UTF-8 generally, this is the code-point order used here). -/
def lexLe : List Char → List Char → Bool
  | [], _ => true
  | _ :: _, [] => false
  | a :: as, b :: bs => decide (a.toNat < b.toNat) || (a == b && lexLe as bs)

/-- Go string `<=`, as a proposition, for `sort.Strings`. -/
def strLeP (a b : String) : Prop :=
  lexLe a.data b.data = true

instance : DecidableRel strLeP :=
  fun a b => inferInstanceAs (Decidable (lexLe a.data b.data = true))

instance : IsTotal String strLeP where
  total := by
    suffices h : ∀ x y : List Char, lexLe x y = true ∨ lexLe y x = true by
      intro a b; exact h a.data b.data
    intro x
    induction x with
    | nil => intro y; exact Or.inl rfl
    | cons a as ih =>
      intro y
      cases y with
      | nil => exact Or.inr rfl
      | cons b bs =>
        simp only [lexLe, Bool.or_eq_true, Bool.and_eq_true, decide_eq_true_eq,
          beq_iff_eq]
        rcases Nat.lt_trichotomy a.toNat b.toNat with h | h | h
        · exact Or.inl (Or.inl h)
        · have hab : a = b := Char.ext (UInt32.toNat.inj h)
          subst hab
          rcases ih bs with h2 | h2
          · exact Or.inl (Or.inr ⟨rfl, h2⟩)
          · exact Or.inr (Or.inr ⟨rfl, h2⟩)
        · exact Or.inr (Or.inl h)

instance : IsTrans String strLeP where
  trans := by
    suffices h : ∀ x y z : List Char,
        lexLe x y = true → lexLe y z = true → lexLe x z = true by
      intro a b c hab hbc; exact h a.data b.data c.data hab hbc
    intro x
    induction x with
    | nil => intro y z _ _; rfl
    | cons a as ih =>
      intro y z hxy hyz
      cases y with
      | nil => simp [lexLe] at hxy
      | cons b bs =>
        cases z with
        | nil => simp [lexLe] at hyz
        | cons c cs =>
          simp only [lexLe, Bool.or_eq_true, Bool.and_eq_true, decide_eq_true_eq,
            beq_iff_eq] at hxy hyz ⊢
          rcases hxy with h1 | ⟨rfl, h2⟩
          · rcases hyz with g1 | ⟨rfl, g2⟩
            · exact Or.inl (h1.trans g1)
            · exact Or.inl h1
          · rcases hyz with g1 | ⟨rfl, g2⟩
            · exact Or.inl g1
            · exact Or.inr ⟨rfl, ih bs cs h2 g2⟩

instance : IsAntisymm String strLeP where
  antisymm := by
    suffices h : ∀ x y : List Char, lexLe x y = true → lexLe y x = true → x = y by
      intro a b hab hba
      cases a; cases b; exact congrArg String.mk (h _ _ hab hba)
    intro x
    induction x with
    | nil =>
      intro y h1 h2
      cases y with
      | nil => rfl
      | cons b bs => simp [lexLe] at h2
    | cons a as ih =>
      intro y h1 h2
      cases y with
      | nil => simp [lexLe] at h1
      | cons b bs =>
        simp only [lexLe, Bool.or_eq_true, Bool.and_eq_true, decide_eq_true_eq,
          beq_iff_eq] at h1 h2
        rcases h1 with h1 | ⟨rfl, h1⟩
        · rcases h2 with h2 | ⟨e, h2⟩
          · exact absurd (h1.trans h2) (lt_irrefl _)
          · exact absurd h1 (by simp [e])
        · rcases h2 with h2 | ⟨e, h2⟩
          · exact absurd h2 (lt_irrefl _)
          · rw [ih bs h1 h2]

/-- collectLabelKeys (metrics.go lines 59-76): the deduplicated, sorted list
of all label keys. -/
def collectLabelKeys (proxies : List Proxy) : List String :=
  List.insertionSort strLeP (collectKeysRaw proxies).dedup

/-- Metrics (metrics.go lines 11-15); the Prometheus collector objects are
kept abstract, the model records the label schema and the histogram
buckets. -/
structure Metrics where
  LabelKeys : List String
  buckets : List ℚ

/-- metrics.New (metrics.go lines 18-56): derive the label schema once. -/
def MetricsNew (proxies : List Proxy) (buckets : List ℚ) : Metrics :=
  { LabelKeys := collectLabelKeys proxies, buckets := buckets }

/-! `internal/request` (src/unnamed/part_001, second section). -/

/-- Go errors as this program observes them: `io.EOF`, plain errors,
`net.Error` values, and `*url.Error` wrappers (which themselves implement
`net.Error`). -/
inductive GoError where
  | ioEOF
  | basic (msg : String)
  | netOpError (msg : String)
  | urlError (op url : String) (err : GoError)
  deriving DecidableEq

/-- The `Error()` string of a `GoError`.  `*url.Error` formats as
`Op + " \"" + URL + "\": " + Err.Error()` (Go `%q` quoting, modelled without
escape sequences); `io.EOF.Error()` is `"EOF"`. -/
def errString : GoError → String
  | .ioEOF => "EOF"
  | .basic m => m
  | .netOpError m => m
  | .urlError op u e => op ++ " \"" ++ u ++ "\": " ++ errString e

/-- Whether the dynamic type assertion `err.(net.Error)` succeeds:
`*net.OpError` and `*url.Error` implement it, `io.EOF` and plain errors do
not. -/
def isNetError : GoError → Bool
  | .netOpError _ => true
  | .urlError _ _ _ => true
  | _ => false

/-- Whether `pat` is a prefix of `l`. -/
def isPrefixList : List Char → List Char → Bool
  | [], _ => true
  | _ :: _, [] => false
  | a :: as, b :: bs => a == b && isPrefixList as bs

/-- Whether `pat` occurs inside `l` (substring search). -/
def containsList : List Char → List Char → Bool
  | _, [] => true
  | [], _ :: _ => false
  | c :: cs, pat => isPrefixList pat (c :: cs) || containsList cs pat

/-- Go `strings.Contains`. -/
def goContains (s sub : String) : Bool :=
  containsList s.data sub.data

/-- The fallthrough tail of `CategorizeError` after the substring rules and
the `*url.Error` recursion (src/unnamed/part_001 lines 205-211). -/
def categorizeTail (e : GoError) : String × String :=
  if isNetError e then ("connection_error", "") else ("unknown_error", "")

/-- CategorizeError on a non-nil error (src/unnamed/part_001 lines 159-212):
ordered case-insensitive substring rules — timeout, DNS, EOF, connection —
then recursion into a `*url.Error`'s inner error, then the `net.Error`
fallback.  (For a non-nil error the recursive call never returns `""`, so the
`errType != ""` guard in the source always passes.) -/
def categorize (e : GoError) : String × String :=
  let errLower := toLowerStr (errString e)
  if goContains errLower "timeout" || goContains errLower "deadline exceeded" ||
      goContains errLower "i/o timeout" then
    ("timeout", "")
  else if goContains errLower "no such host" || goContains errLower "dns" ||
      goContains errLower "name resolution" then
    ("dns_error", "")
  else if e == .ioEOF || goContains errLower "eof" then
    ("connection_error", "")
  else if goContains errLower "connection refused" ||
      goContains errLower "connection reset" ||
      goContains errLower "broken pipe" ||
      goContains errLower "network is unreachable" then
    ("connection_error", "")
  else
    match e with
    | .urlError op u inner =>
      if (categorize inner).1 ≠ "" then ((categorize inner).1, "")
      else categorizeTail (.urlError op u inner)
    | e1 => categorizeTail e1

/-- CategorizeError including the nil guard (lines 160-162). -/
def CategorizeError : Option GoError → String × String
  | none => ("", "")
  | some e => categorize e

/-- Go map lookup `val, ok := labels[key]` over the association-list model. -/
def lookupLabel (labels : List (String × String)) (key : String) : Option String :=
  match labels with
  | [] => none
  | kv :: rest => if kv.1 = key then some kv.2 else lookupLabel rest key

/-- buildLabelValues closure of request.Make (src/unnamed/part_001 lines
98-109): `proxy_id, proxy_protocol, ...schema values..., status, error`;
a key the endpoint does not define contributes `""`. -/
def buildLabelValues (m : Metrics) (proxyID proxyProtocol : String)
    (labels : List (String × String)) (status errorValue : String) : List String :=
  [proxyID, proxyProtocol] ++
    m.LabelKeys.map (fun key => (lookupLabel labels key).getD "") ++
    [status, errorValue]

/-- buildDurationLabelValues closure (lines 112-122): the same without
status/error. -/
def buildDurationLabelValues (m : Metrics) (proxyID proxyProtocol : String)
    (labels : List (String × String)) : List String :=
  [proxyID, proxyProtocol] ++
    m.LabelKeys.map (fun key => (lookupLabel labels key).getD "")

/-- How one attempt of `request.Make` completed: the transport/client
returned an error, or a response arrived with a status code and the body read
either failed or succeeded. -/
inductive AttemptResult where
  | transportError (e : GoError)
  | response (statusCode : Nat) (bodyRead : Option GoError)

/-- One metric write: a counter increment on `requests_total` or a histogram
observation on `request_duration_seconds`. -/
inductive MetricEvent where
  | incRequestsTotal (labelValues : List String)
  | observeRequestDuration (labelValues : List String) (seconds : ℚ)
  deriving DecidableEq

/-- The recording flow of request.Make (src/unnamed/part_001 lines 91-156),
with the elapsed seconds passed in: transport error → categorized error;
otherwise the body is drained first, a read failure records `read_error`;
only then is the status code examined — `>= 400` records `http_<code>`,
otherwise success with empty category.  Every path records exactly one
increment and one latency observation. -/
def MakeModel (m : Metrics) (proxyID proxyProtocol : String)
    (labels : List (String × String)) (r : AttemptResult) (duration : ℚ) :
    List MetricEvent :=
  match r with
  | .transportError e =>
    [.incRequestsTotal
        (buildLabelValues m proxyID proxyProtocol labels "error" (CategorizeError (some e)).1),
     .observeRequestDuration (buildDurationLabelValues m proxyID proxyProtocol labels) duration]
  | .response _ (some _) =>
    [.incRequestsTotal (buildLabelValues m proxyID proxyProtocol labels "error" "read_error"),
     .observeRequestDuration (buildDurationLabelValues m proxyID proxyProtocol labels) duration]
  | .response code none =>
    if 400 ≤ code then
      [.incRequestsTotal
          (buildLabelValues m proxyID proxyProtocol labels "error" ("http_" ++ toString code)),
       .observeRequestDuration (buildDurationLabelValues m proxyID proxyProtocol labels) duration]
    else
      [.incRequestsTotal (buildLabelValues m proxyID proxyProtocol labels "success" ""),
       .observeRequestDuration (buildDurationLabelValues m proxyID proxyProtocol labels) duration]

/-! `internal/runner` (src/internal/runner/runner.go). -/

/-- Fate of one runner goroutine after all runners have been started. -/
inductive RunnerStatus where
  | running
  | killedByProcessExit
  deriving DecidableEq

/-- runner.Run (runner.go lines 15-20) calls `log.Fatalf` when
`proxy.CreateTransport` fails; `log.Fatalf` calls `os.Exit(1)`, which
terminates the whole process and with it every other runner goroutine
(main.go starts one `runner.Run` goroutine per configured proxy).  So after
startup either every build succeeded and all runners loop, or some build
failed and the process exit killed them all. -/
def startRunners (proxies : List Proxy) : List RunnerStatus :=
  if proxies.all (fun p => (CreateTransport p.protocol p.proxy).isOk) then
    proxies.map (fun _ => RunnerStatus.running)
  else
    proxies.map (fun _ => RunnerStatus.killedByProcessExit)

/-! Concrete fixtures used by witnesses and counterexamples. -/

/-- A proxy whose transport builds successfully. -/
def goodProxy : Proxy :=
  { protocol := "http", proxy := "proxy.example.com:8080", targetURL := "",
    labels := [("region", "us")] }

/-- A proxy whose transport build fails (unsupported protocol). -/
def badProxy : Proxy :=
  { protocol := "ftp", proxy := "proxy.example.com:8080", targetURL := "",
    labels := [] }

/-- Scenario A, first endpoint: labels `region=us`. -/
def endpointA1 : Proxy :=
  { protocol := "socks5", proxy := "proxy1.example.com:1080", targetURL := "",
    labels := [("region", "us")] }

/-- Scenario A, second endpoint: labels `region=eu, tier=gold`. -/
def endpointA2 : Proxy :=
  { protocol := "http", proxy := "proxy2.example.com:8080", targetURL := "",
    labels := [("region", "eu"), ("tier", "gold")] }

/-! Generic helper lemmas. -/

theorem cutFirst_eq_self {sep : Char} {l : List Char} (h : ∀ c ∈ l, c ≠ sep) :
    cutFirst sep l = (l, []) := by
  induction l with
  | nil => rfl
  | cons c cs ih =>
    have hc : (c == sep) = false :=
      beq_eq_false_iff_ne.mpr (h c (List.mem_cons_self c cs))
    simp [cutFirst, hc, ih fun x hx => h x (List.mem_cons_of_mem _ hx)]

theorem splitLast_eq_none {sep : Char} {l : List Char} (h : ∀ c ∈ l, c ≠ sep) :
    splitLast sep l = none := by
  induction l with
  | nil => rfl
  | cons c cs ih =>
    have hc : (c == sep) = false :=
      beq_eq_false_iff_ne.mpr (h c (List.mem_cons_self c cs))
    simp [splitLast, hc, ih fun x hx => h x (List.mem_cons_of_mem _ hx)]

theorem splitLast_append {sep : Char} (a : List Char) {b : List Char}
    (h : ∀ c ∈ b, c ≠ sep) :
    splitLast sep (a ++ sep :: b) = some (a, b) := by
  induction a with
  | nil => simp [splitLast, splitLast_eq_none h]
  | cons c cs ih => simp [splitLast, ih]

theorem takeWhile_eq_self {p : Char → Bool} {l : List Char}
    (h : ∀ c ∈ l, p c = true) : l.takeWhile p = l := by
  induction l with
  | nil => rfl
  | cons c cs ih =>
    simp [List.takeWhile_cons, h c (List.mem_cons_self c cs),
      ih fun x hx => h x (List.mem_cons_of_mem _ hx)]

theorem dropWhile_eq_nil {p : Char → Bool} {l : List Char}
    (h : ∀ c ∈ l, p c = true) : l.dropWhile p = [] := by
  induction l with
  | nil => rfl
  | cons c cs ih =>
    simp [List.dropWhile_cons, h c (List.mem_cons_self c cs),
      ih fun x hx => h x (List.mem_cons_of_mem _ hx)]

/-! Character-class facts. -/

theorem isSchemeChar_ne {c : Char} (h : isSchemeChar c = true) :
    c ≠ '#' ∧ c ≠ '?' ∧ c ≠ ':' ∧ c ≠ '/' := by
  refine ⟨?_, ?_, ?_, ?_⟩ <;> rintro rfl <;> exact absurd h (by decide)

theorem isUserinfoChar_ne {c : Char} (h : isUserinfoChar c = true) :
    c ≠ '#' ∧ c ≠ '?' ∧ c ≠ '/' := by
  refine ⟨?_, ?_, ?_⟩ <;> rintro rfl <;> exact absurd h (by decide)

theorem isHostChar_ne {c : Char} (h : isHostChar c = true) :
    c ≠ '#' ∧ c ≠ '?' ∧ c ≠ '/' ∧ c ≠ '@' ∧ c ≠ '%' := by
  refine ⟨?_, ?_, ?_, ?_, ?_⟩ <;> rintro rfl <;> exact absurd h (by decide)

/-! Claim C7: latency buckets. -/

/-- C7: with no configured latency-bucket list the histogram uses exactly the
default ladder 0.05, 0.1, 0.2, 0.3, 0.4, 0.5, 0.75, 1.0, 1.5, 2.0, 5.0, 10.0
seconds, which is strictly ascending; a non-empty configured list is used
unchanged instead. -/
theorem c7_latency_buckets :
    (∀ c : ProxyConfig, c.latencyBuckets = [] →
      GetLatencyBuckets c =
        [0.05, 0.1, 0.2, 0.3, 0.4, 0.5, 0.75, 1.0, 1.5, 2.0, 5.0, 10.0]) ∧
    List.Sorted (· < ·) defaultLatencyBuckets ∧
    (∀ c : ProxyConfig, c.latencyBuckets ≠ [] →
      GetLatencyBuckets c = c.latencyBuckets) := by
  refine ⟨?_, ?_, ?_⟩
  · intro c hc
    simp [GetLatencyBuckets, hc, defaultLatencyBuckets]
  · simp only [defaultLatencyBuckets, List.sorted_cons, List.mem_cons,
      List.mem_singleton, List.not_mem_nil, List.Sorted]
    norm_num
  · intro c hc
    have h : 0 < c.latencyBuckets.length := List.length_pos.mpr hc
    simp [GetLatencyBuckets, h]

/-- C7 witness: an empty configuration yields the default ladder, a
configured list of two boundaries is returned unchanged. -/
theorem c7_witness :
    GetLatencyBuckets
        { defaultTargetURL := "", requestInterval := 0, requestTimeout := 0,
          metricsPort := 0, latencyBuckets := [], proxies := [] } =
      [0.05, 0.1, 0.2, 0.3, 0.4, 0.5, 0.75, 1.0, 1.5, 2.0, 5.0, 10.0] ∧
    GetLatencyBuckets
        { defaultTargetURL := "", requestInterval := 0, requestTimeout := 0,
          metricsPort := 0, latencyBuckets := [0.25, 3.0], proxies := [] } =
      [0.25, 3.0] :=
  ⟨c7_latency_buckets.1 _ rfl, c7_latency_buckets.2.2 _ (List.cons_ne_nil _ _)⟩

/-! Claim C5 and C9: outcome recording of request.Make. -/

/-- C5: with no transport error, a status of at least 400 records outcome
`error` with category `http_<code>` and still observes latency; a status
below 400 records `success` with empty category; a body-read failure after a
successful status line records `read_error`.  Latency is observed in every
case. -/
theorem c5_status_classification (m : Metrics) (pid proto : String)
    (labels : List (String × String)) (d : ℚ) :
    (∀ code : Nat, 400 ≤ code →
      MakeModel m pid proto labels (.response code none) d =
        [.incRequestsTotal
            (buildLabelValues m pid proto labels "error" ("http_" ++ toString code)),
         .observeRequestDuration (buildDurationLabelValues m pid proto labels) d]) ∧
    (∀ code : Nat, code < 400 →
      MakeModel m pid proto labels (.response code none) d =
        [.incRequestsTotal (buildLabelValues m pid proto labels "success" ""),
         .observeRequestDuration (buildDurationLabelValues m pid proto labels) d]) ∧
    (∀ (code : Nat) (e : GoError),
      MakeModel m pid proto labels (.response code (some e)) d =
        [.incRequestsTotal (buildLabelValues m pid proto labels "error" "read_error"),
         .observeRequestDuration (buildDurationLabelValues m pid proto labels) d]) := by
  refine ⟨?_, ?_, ?_⟩
  · intro code h
    simp [MakeModel, h]
  · intro code h
    simp [MakeModel, Nat.not_le.mpr h]
  · intro code e
    rfl

/-- C5 witness (scenario B): a 503 response with a drained body records
outcome `error`, category `http_503`, and one latency observation. -/
theorem c5_witness :
    400 ≤ 503 ∧
    MakeModel (MetricsNew [endpointA1, endpointA2] defaultLatencyBuckets) "proxy1"
        "socks5" endpointA1.labels (.response 503 none) 1 =
      [.incRequestsTotal ["proxy1", "socks5", "us", "", "error", "http_503"],
       .observeRequestDuration ["proxy1", "socks5", "us", ""] 1] := by
  refine ⟨by decide, ?_⟩
  have h := (c5_status_classification (MetricsNew [endpointA1, endpointA2]
    defaultLatencyBuckets) "proxy1" "socks5" endpointA1.labels 1).1 503 (by decide)
  exact h.trans (by decide)

/-- No category of the form `http_<code>` equals `read_error`. -/
theorem http_cat_ne_read_error (s : String) : "http_" ++ s ≠ "read_error" := by
  intro h
  have hd := congrArg String.data h
  rw [String.data_append] at hd
  simp at hd

/-- The error-category slot determines itself: two equal outcome tuples have
equal categories. -/
theorem buildLabelValues_cat_inj (m : Metrics) (pid proto : String)
    (labels : List (String × String)) (st : String) {e₁ e₂ : String}
    (h : buildLabelValues m pid proto labels st e₁ =
      buildLabelValues m pid proto labels st e₂) : e₁ = e₂ := by
  simp only [buildLabelValues, List.append_assoc, List.append_cancel_left_eq] at h
  simpa using h

/-- C9: when the status line succeeded but the body read fails, the recorded
category is `read_error` even for a status of at least 400; the `http_<code>`
increment is never emitted for such an attempt (the body is drained and
checked before the status code is examined). -/
theorem c9_read_error_precedence (m : Metrics) (pid proto : String)
    (labels : List (String × String)) (d : ℚ) (code : Nat) (e : GoError)
    (h : 400 ≤ code) :
    MakeModel m pid proto labels (.response code (some e)) d =
      [.incRequestsTotal (buildLabelValues m pid proto labels "error" "read_error"),
       .observeRequestDuration (buildDurationLabelValues m pid proto labels) d] ∧
    MetricEvent.incRequestsTotal
        (buildLabelValues m pid proto labels "error" ("http_" ++ toString code)) ∉
      MakeModel m pid proto labels (.response code (some e)) d := by
  refine ⟨rfl, ?_⟩
  intro hmem
  rcases List.mem_cons.mp hmem with h1 | h1
  · have h2 : buildLabelValues m pid proto labels "error" ("http_" ++ toString code) =
        buildLabelValues m pid proto labels "error" "read_error" :=
      MetricEvent.incRequestsTotal.inj h1
    exact http_cat_ne_read_error _ (buildLabelValues_cat_inj m pid proto labels _ h2)
  · rcases List.mem_singleton.mp h1 with h2
    cases h2

/-- C9 witness: a 503 status with a failed body read records `read_error`,
and the `http_503` increment does not occur. -/
theorem c9_witness :
    MakeModel (MetricsNew [endpointA1, endpointA2] defaultLatencyBuckets) "proxy1"
        "socks5" endpointA1.labels (.response 503 (some (.basic "unexpected EOF"))) 1 =
      [.incRequestsTotal ["proxy1", "socks5", "us", "", "error", "read_error"],
       .observeRequestDuration ["proxy1", "socks5", "us", ""] 1] ∧
    MetricEvent.incRequestsTotal ["proxy1", "socks5", "us", "", "error", "http_503"] ∉
      MakeModel (MetricsNew [endpointA1, endpointA2] defaultLatencyBuckets) "proxy1"
        "socks5" endpointA1.labels (.response 503 (some (.basic "unexpected EOF"))) 1 := by
  have h := c9_read_error_precedence (MetricsNew [endpointA1, endpointA2]
    defaultLatencyBuckets) "proxy1" "socks5" endpointA1.labels 1 503
    (.basic "unexpected EOF") (by decide)
  refine ⟨h.1.trans (by decide), ?_⟩
  have he : buildLabelValues (MetricsNew [endpointA1, endpointA2] defaultLatencyBuckets)
      "proxy1" "socks5" endpointA1.labels "error" ("http_" ++ toString 503) =
      ["proxy1", "socks5", "us", "", "error", "http_503"] := by decide
  exact he ▸ h.2

/-! Claim C4: timeout rule precedence in CategorizeError. -/

/-- C4: every non-nil error whose lowercased description contains `timeout`
is classified `timeout`, regardless of any other substrings present, because
the timeout rule is checked first. -/
theorem c4_timeout_rule (e : GoError)
    (h : goContains (toLowerStr (errString e)) "timeout" = true) :
    CategorizeError (some e) = ("timeout", "") := by
  show categorize e = ("timeout", "")
  cases e <;> rw [categorize] <;> simp [h]

/-- C4 witness: an error text containing both `Timeout` and
`connection reset` is classified `timeout`, not `connection_error`. -/
theorem c4_witness :
    goContains (toLowerStr (errString
        (.basic "read tcp: Timeout after connection reset by peer"))) "timeout" = true ∧
    goContains (toLowerStr (errString
        (.basic "read tcp: Timeout after connection reset by peer")))
        "connection reset" = true ∧
    CategorizeError (some (.basic "read tcp: Timeout after connection reset by peer")) =
      ("timeout", "") := by
  refine ⟨by decide, by decide, ?_⟩
  exact c4_timeout_rule _ (by decide)

/-! Claim C1: transport-build failure is process-fatal, not runner-local. -/

/-- C1 counterexample: with one healthy proxy and one whose transport build
fails, the healthy sibling runner is killed too — `log.Fatalf` in
`runner.Run` exits the whole process, contradicting the claim that a
transport-build failure does not affect the runners of other proxies. -/
theorem c1_counterexample :
    (CreateTransport goodProxy.protocol goodProxy.proxy).isOk = true ∧
    (CreateTransport badProxy.protocol badProxy.proxy).isOk = false ∧
    startRunners [goodProxy, badProxy] =
      [RunnerStatus.killedByProcessExit, RunnerStatus.killedByProcessExit] :=
  ⟨by decide, by decide, by decide⟩

/-- C1 amended: a transport-build failure in any one runner terminates every
runner (the whole process exits); all runners keep running only when every
configured proxy's transport builds successfully. -/
theorem c1_amended (proxies : List Proxy) :
    ((∀ p ∈ proxies, (CreateTransport p.protocol p.proxy).isOk = true) →
      startRunners proxies = proxies.map (fun _ => RunnerStatus.running)) ∧
    ((∃ p ∈ proxies, (CreateTransport p.protocol p.proxy).isOk = false) →
      startRunners proxies =
        proxies.map (fun _ => RunnerStatus.killedByProcessExit)) := by
  constructor
  · intro h
    have hall : proxies.all (fun p => (CreateTransport p.protocol p.proxy).isOk) = true :=
      List.all_eq_true.mpr h
    simp [startRunners, hall]
  · rintro ⟨p, hp, hfail⟩
    have hall : proxies.all (fun p => (CreateTransport p.protocol p.proxy).isOk) = false := by
      rcases hb : proxies.all (fun p => (CreateTransport p.protocol p.proxy).isOk) with _ | _
      · rfl
      · exact absurd (List.all_eq_true.mp hb p hp) (by simp [hfail])
    simp [startRunners, hall]

/-- C1 witness for the amended claim: applied to the two-proxy fixture, the
bad proxy's failure marks both runners killed. -/
theorem c1_witness :
    startRunners [goodProxy, badProxy] =
      [goodProxy, badProxy].map (fun _ => RunnerStatus.killedByProcessExit) :=
  (c1_amended [goodProxy, badProxy]).2
    ⟨badProxy, by decide, by decide⟩

/-! Claim C3: label-value tuple arity and empty-string padding. -/

/-- C3: for every endpoint and attempt, the outcome tuple has exactly
`2 + |LabelSchema| + 2` values and the latency tuple exactly
`2 + |LabelSchema|`; every schema key the endpoint does not define
contributes the empty string at its schema position. -/
theorem c3_label_tuples (proxies : List Proxy) (buckets : List ℚ)
    (pid proto status errv : String) (labels : List (String × String)) :
    (buildLabelValues (MetricsNew proxies buckets) pid proto labels status errv).length =
      2 + (MetricsNew proxies buckets).LabelKeys.length + 2 ∧
    (buildDurationLabelValues (MetricsNew proxies buckets) pid proto labels).length =
      2 + (MetricsNew proxies buckets).LabelKeys.length ∧
    (∀ (i : Nat) (k : String), (MetricsNew proxies buckets).LabelKeys[i]? = some k →
      lookupLabel labels k = none →
      (buildLabelValues (MetricsNew proxies buckets) pid proto labels status errv)[2 + i]? =
        some "" ∧
      (buildDurationLabelValues (MetricsNew proxies buckets) pid proto labels)[2 + i]? =
        some "") := by
  refine ⟨?_, ?_, ?_⟩
  · simp [buildLabelValues]
    omega
  · simp [buildDurationLabelValues]
    omega
  · intro i k hk hlk
    have hi : i < (MetricsNew proxies buckets).LabelKeys.length := by
      by_contra hc
      rw [List.getElem?_eq_none (by omega)] at hk
      cases hk
    have hmap :
        ((MetricsNew proxies buckets).LabelKeys.map
          (fun key => (lookupLabel labels key).getD ""))[i]? = some "" := by
      rw [List.getElem?_map, hk]
      simp [hlk]
    constructor
    · show (([pid, proto] ++ _) ++ [status, errv])[2 + i]? = some ""
      rw [List.getElem?_append, if_pos (by simp; omega),
        List.getElem?_append_right (by simp)]
      simpa using hmap
    · show ([pid, proto] ++ _)[2 + i]? = some ""
      rw [List.getElem?_append_right (by simp)]
      simpa using hmap

/-- C3 witness (scenario A): with schema `[region, tier]`, endpoint A1 (which
defines only `region`) yields an outcome tuple of 6 values and a latency
tuple of 4, with `tier`'s position holding the empty string. -/
theorem c3_witness :
    (MetricsNew [endpointA1, endpointA2] defaultLatencyBuckets).LabelKeys[1]? =
      some "tier" ∧
    lookupLabel endpointA1.labels "tier" = none ∧
    (buildLabelValues (MetricsNew [endpointA1, endpointA2] defaultLatencyBuckets)
      "proxy1" "socks5" endpointA1.labels "success" "").length = 2 + 2 + 2 ∧
    (buildLabelValues (MetricsNew [endpointA1, endpointA2] defaultLatencyBuckets)
      "proxy1" "socks5" endpointA1.labels "success" "")[2 + 1]? = some "" := by
  have h := c3_label_tuples [endpointA1, endpointA2] defaultLatencyBuckets
    "proxy1" "socks5" "success" "" endpointA1.labels
  refine ⟨by decide, by decide, ?_, ?_⟩
  · exact h.1.trans (by decide)
  · exact (h.2.2 1 "tier" (by decide) (by decide)).1

/-! Claim C2: the derived label schema. -/

theorem collectKeysRaw_append (l₁ l₂ : List Proxy) :
    collectKeysRaw (l₁ ++ l₂) = collectKeysRaw l₁ ++ collectKeysRaw l₂ := by
  induction l₁ with
  | nil => rfl
  | cons p ps ih => simp [collectKeysRaw, ih]

theorem collectKeysRaw_perm {l₁ l₂ : List Proxy} (h : l₁.Perm l₂) :
    (collectKeysRaw l₁).Perm (collectKeysRaw l₂) := by
  induction h with
  | nil => rfl
  | cons x _ ih => exact ih.append_left _
  | swap x y l =>
    show (collectKeysRaw (y :: x :: l)).Perm (collectKeysRaw (x :: y :: l))
    simp only [collectKeysRaw, ← List.append_assoc]
    exact List.perm_append_comm.append_right _
  | trans _ _ ih1 ih2 => exact ih1.trans ih2

theorem mem_collectKeysRaw {k : String} {l : List Proxy} :
    k ∈ collectKeysRaw l ↔ ∃ p ∈ l, k ∈ p.labels.map Prod.fst := by
  induction l with
  | nil => simp [collectKeysRaw]
  | cons p ps ih => simp [collectKeysRaw, List.mem_append, ih]

/-- C2: the derived schema is sorted (in the byte-wise string order Go's
`sort.Strings` uses) and duplicate-free; its members are exactly the label
keys appearing on some endpoint; it is invariant under permutation of the
endpoint list and under duplicating it, and endpoints with empty label maps
contribute nothing. -/
theorem c2_label_schema (l₁ l₂ : List Proxy) (p : Proxy)
    (hperm : l₁.Perm l₂) (hp : p.labels = []) :
    List.Sorted strLeP (collectLabelKeys l₁) ∧
    (collectLabelKeys l₁).Nodup ∧
    (∀ k : String, k ∈ collectLabelKeys l₁ ↔ ∃ q ∈ l₁, k ∈ q.labels.map Prod.fst) ∧
    collectLabelKeys l₂ = collectLabelKeys l₁ ∧
    collectLabelKeys (l₁ ++ l₁) = collectLabelKeys l₁ ∧
    collectLabelKeys (p :: l₁) = collectLabelKeys l₁ := by
  have hsorted : ∀ l : List Proxy, List.Sorted strLeP (collectLabelKeys l) :=
    fun l => List.sorted_insertionSort strLeP _
  have hnodup : ∀ l : List Proxy, (collectLabelKeys l).Nodup := fun l =>
    ((List.perm_insertionSort strLeP _).nodup_iff).mpr (List.nodup_dedup _)
  have hkeyeq : ∀ l m : List Proxy,
      ((collectKeysRaw l).dedup).Perm ((collectKeysRaw m).dedup) →
      collectLabelKeys l = collectLabelKeys m := by
    intro l m h
    refine List.eq_of_perm_of_sorted ?_ (hsorted l) (hsorted m)
    exact (List.perm_insertionSort strLeP _).trans
      (h.trans (List.perm_insertionSort strLeP _).symm)
  refine ⟨hsorted l₁, hnodup l₁, ?_, ?_, ?_, ?_⟩
  · intro k
    unfold collectLabelKeys
    rw [(List.perm_insertionSort strLeP _).mem_iff, List.mem_dedup]
    exact mem_collectKeysRaw
  · exact hkeyeq l₂ l₁ (collectKeysRaw_perm hperm.symm).dedup
  · refine hkeyeq _ _ ?_
    rw [collectKeysRaw_append]
    refine (List.perm_ext_iff_of_nodup (List.nodup_dedup _) (List.nodup_dedup _)).mpr ?_
    intro a
    simp [List.mem_dedup, List.mem_append]
  · refine hkeyeq _ _ ?_
    show ((p.labels.map Prod.fst ++ collectKeysRaw l₁).dedup).Perm _
    rw [hp]
    exact List.Perm.refl _

/-- C2 witness: the schema of scenario A's endpoints is `[region, tier]`, the
same for the reversed endpoint list, and an endpoint with an empty label map
adds nothing. -/
theorem c2_witness :
    collectLabelKeys [endpointA1, endpointA2] = ["region", "tier"] ∧
    collectLabelKeys [endpointA2, endpointA1] = ["region", "tier"] ∧
    collectLabelKeys [badProxy, endpointA1, endpointA2] = ["region", "tier"] := by
  have h := c2_label_schema [endpointA1, endpointA2] [endpointA2, endpointA1] badProxy
    (List.Perm.swap endpointA2 endpointA1 []) rfl
  refine ⟨by decide, ?_, ?_⟩
  · exact h.2.2.2.1.trans (by decide)
  · exact h.2.2.2.2.2.trans (by decide)

/-! Lemmas about the `net/url.Parse` model. -/

theorem getSchemeAux_append {cs rest : List Char}
    (h : ∀ c ∈ cs, isSchemeChar c = true) :
    getSchemeAux (cs ++ ':' :: rest) false = .found cs rest := by
  induction cs with
  | nil => rfl
  | cons c cs ih =>
    have hc := h c (List.mem_cons_self c cs)
    have ihr := ih fun x hx => h x (List.mem_cons_of_mem _ hx)
    by_cases ha : isAlpha c = true
    · simp [getSchemeAux, ha, ihr]
    · have hd : (isDigit c || c == '+' || c == '-' || c == '.') = true := by
        rw [isSchemeChar] at hc
        simp only [Bool.or_eq_true] at hc ⊢
        tauto
      simp [getSchemeAux, ha, hd, ihr]

theorem getScheme_valid {proto rest : List Char} (h : isValidScheme proto = true) :
    getScheme (proto ++ ':' :: rest) = .found proto rest := by
  cases proto with
  | nil => simp [isValidScheme] at h
  | cons c cs =>
    rw [isValidScheme, Bool.and_eq_true] at h
    have ha := h.1
    have hall := List.all_eq_true.mp h.2
    rw [getScheme]
    simp [getSchemeAux, ha, getSchemeAux_append hall]

theorem parseHost_eq {l h : List Char} (hp : parseHost l = some h) :
    h = l ∧ ∀ c ∈ l, isHostChar c = true := by
  unfold parseHost at hp
  split at hp
  · split at hp
    · cases hp
    · split at hp
      · rename_i hcond
        rw [Bool.and_eq_true] at hcond
        cases hp
        exact ⟨rfl, List.all_eq_true.mp hcond.2⟩
      · cases hp
  · split at hp
    · split at hp
      · rename_i hcond
        cases hp
        exact ⟨rfl, List.all_eq_true.mp hcond⟩
      · cases hp
    · split at hp
      · rename_i hcond
        rw [Bool.and_eq_true] at hcond
        cases hp
        exact ⟨rfl, List.all_eq_true.mp hcond.2⟩
      · cases hp

theorem parseAuthority_hostChars {a : List Char}
    {u : Option (List Char) × Option (List Char) × List Char}
    (hp : parseAuthority a = some u) : ∀ c ∈ u.2.2, isHostChar c = true := by
  unfold parseAuthority at hp
  split at hp
  · cases hh : parseHost a with
    | none => rw [hh] at hp; cases hp
    | some h0 =>
      rw [hh] at hp
      cases hp
      exact fun c hc => (parseHost_eq hh).2 c ((parseHost_eq hh).1 ▸ hc)
  · rename_i p hsplit
    cases hh : parseHost p.2 with
    | none => rw [hh] at hp; cases hp
    | some h0 =>
      simp only [hh] at hp
      split at hp
      · split at hp
        · cases hp
          exact fun c hc => (parseHost_eq hh).2 c ((parseHost_eq hh).1 ▸ hc)
        · cases hp
          exact fun c hc => (parseHost_eq hh).2 c ((parseHost_eq hh).1 ▸ hc)
      · cases hp

theorem parseAuthorityAndPath_hostChars {sch body : List Char} {u : GoURL}
    (hp : parseAuthorityAndPath sch body = some u) :
    ∀ c ∈ u.host, isHostChar c = true := by
  unfold parseAuthorityAndPath at hp
  split at hp
  · cases hp
  · rename_i v hv
    split at hp
    · cases hp
      exact parseAuthority_hostChars hv
    · cases hp

theorem parseAfterQuery_hostChars {sch rest : List Char} {u : GoURL}
    (hp : parseAfterQuery sch rest = some u) :
    ∀ c ∈ u.host, isHostChar c = true := by
  unfold parseAfterQuery at hp
  split at hp
  · split at hp
    · cases hp
      intro c hc
      cases hc
    · split at hp
      · cases hp
      · split at hp
        · cases hp
          intro c hc
          cases hc
        · cases hp
  · split at hp
    · exact parseAuthorityAndPath_hostChars hp
    · split at hp
      · cases hp
        intro c hc
        cases hc
      · cases hp

theorem goParseList_hostChars {raw : List Char} {u : GoURL}
    (hp : goParseList raw = some u) : ∀ c ∈ u.host, isHostChar c = true := by
  unfold goParseList at hp
  split at hp
  · cases hp
  · exact parseAfterQuery_hostChars hp
  · exact parseAfterQuery_hostChars hp

theorem parseAuthority_cred {ui hp : List Char}
    (hui : ∀ c ∈ ui, isUserinfoChar c = true)
    (hhp : parseHost hp = some hp) :
    parseAuthority (ui ++ '@' :: hp) =
      some (some (cutFirst ':' ui).1,
        if ui.contains ':' = true then some (cutFirst ':' ui).2 else none, hp) := by
  have hat : ∀ c ∈ hp, c ≠ '@' := fun c hc =>
    (isHostChar_ne ((parseHost_eq hhp).2 c hc)).2.2.2.1
  unfold parseAuthority
  simp only [splitLast_append ui hat, hhp]
  rw [if_pos (List.all_eq_true.mpr hui)]
  by_cases hc : ':' ∈ ui
  · simp [hc]
  · have hne : ∀ c ∈ ui, c ≠ ':' := fun c hcc he => hc (he ▸ hcc)
    simp [hc, cutFirst_eq_self hne]

theorem parseAuthority_nocred {hp : List Char} (hhp : parseHost hp = some hp) :
    parseAuthority hp = some (none, none, hp) := by
  have hat : ∀ c ∈ hp, c ≠ '@' := fun c hc =>
    (isHostChar_ne ((parseHost_eq hhp).2 c hc)).2.2.2.1
  unfold parseAuthority
  simp [splitLast_eq_none hat, hhp]

theorem parseAfterQuery_authority {sch a : List Char} (hsch : sch ≠ [])
    (hslash : ∀ c ∈ a, c ≠ '/') :
    parseAfterQuery sch ('/' :: '/' :: a) =
      (parseAuthority a).map (fun u => ⟨sch, u.1, u.2.1, u.2.2⟩) := by
  unfold parseAfterQuery
  rw [if_neg (by simp)]
  rw [if_pos ⟨Or.inl hsch, rfl⟩]
  show parseAuthorityAndPath sch a = _
  unfold parseAuthorityAndPath
  rw [takeWhile_eq_self (fun c hc => bne_iff_ne.mpr (hslash c hc)),
    dropWhile_eq_nil (fun c hc => bne_iff_ne.mpr (hslash c hc))]
  cases hpa : parseAuthority a with
  | none => simp
  | some u => simp [validEscapes]

theorem goParseList_authority {proto a : List Char}
    (hsch : isValidScheme proto = true)
    (ha : ∀ c ∈ a, c ≠ '#' ∧ c ≠ '?' ∧ c ≠ '/') :
    goParseList (proto ++ ':' :: '/' :: '/' :: a) =
      (parseAuthority a).map (fun u => ⟨toLowerList proto, u.1, u.2.1, u.2.2⟩) := by
  have hproto : ∀ c ∈ proto, isSchemeChar c = true := by
    cases proto with
    | nil => intro c hc; cases hc
    | cons c cs =>
      rw [isValidScheme, Bool.and_eq_true] at hsch
      intro x hx
      rcases List.mem_cons.mp hx with rfl | hx
      · simp [isSchemeChar, hsch.1]
      · exact List.all_eq_true.mp hsch.2 x hx
  have hne : proto ≠ [] := by
    cases proto with
    | nil => simp [isValidScheme] at hsch
    | cons c cs => simp
  have hhash : ∀ c ∈ proto ++ ':' :: '/' :: '/' :: a, c ≠ '#' := by
    intro c hc
    rcases List.mem_append.mp hc with h | h
    · exact (isSchemeChar_ne (hproto c h)).1
    · rcases List.mem_cons.mp h with rfl | h
      · decide
      · rcases List.mem_cons.mp h with rfl | h
        · decide
        · rcases List.mem_cons.mp h with rfl | h
          · decide
          · exact (ha c h).1
  have hq : ∀ c ∈ '/' :: '/' :: a, c ≠ '?' := by
    intro c hc
    rcases List.mem_cons.mp hc with rfl | hc
    · decide
    · rcases List.mem_cons.mp hc with rfl | hc
      · decide
      · exact (ha c hc).2.1
  unfold goParseList
  simp only [cutFirst_eq_self hhash, getScheme_valid hsch]
  unfold parseAfterScheme
  simp only [cutFirst_eq_self hq]
  rw [parseAfterQuery_authority (by simp [toLowerList, hne])
    (fun c hc => (ha c hc).2.2)]

/-! MaskAuth structure lemmas. -/

theorem maskAuth_parse_fail {protocol s : String}
    (h : goParse (protocol ++ "://" ++ s) = none) :
    MaskAuth protocol s = s := by
  unfold MaskAuth
  rw [h]

theorem maskAuth_eq_host {protocol s : String} {u : GoURL}
    (h : goParse (protocol ++ "://" ++ s) = some u) :
    MaskAuth protocol s = String.mk u.host := by
  unfold MaskAuth
  rw [h]

/-! Claim C6: redaction totality and password removal. -/

/-- C6 (amended): MaskAuth is total; on parse failure it returns the
addressSpec unchanged; on parse success it returns exactly the parsed host
(no user-info component at all), so whenever the password is not itself a
substring of the host:port, the redacted result does not contain it.  (The
unamended claim fails when the password happens to occur inside the host
name — see the counterexample.) -/
theorem c6_mask_redaction (protocol s : String) :
    (goParse (protocol ++ "://" ++ s) = none → MaskAuth protocol s = s) ∧
    (∀ u : GoURL, goParse (protocol ++ "://" ++ s) = some u →
      MaskAuth protocol s = String.mk u.host ∧
      (∀ pw : String, u.password = some pw.data →
        goContains (String.mk u.host) pw = false →
        goContains (MaskAuth protocol s) pw = false)) := by
  constructor
  · exact maskAuth_parse_fail
  · intro u hu
    refine ⟨maskAuth_eq_host hu, ?_⟩
    intro pw _ hnc
    rw [maskAuth_eq_host hu]
    exact hnc

/-- C6 counterexample: addressSpec `user:example@example.com:8080` has a
syntactically valid host:port and embedded password `example`, yet the
redacted result `example.com:8080` does contain the password substring. -/
theorem c6_counterexample :
    goParse ("http" ++ "://" ++ "user:example@example.com:8080") =
      some ⟨"http".data, some "user".data, some "example".data,
        "example.com:8080".data⟩ ∧
    MaskAuth "http" "user:example@example.com:8080" = "example.com:8080" ∧
    goContains (MaskAuth "http" "user:example@example.com:8080") "example" = true :=
  ⟨by decide, by decide, by decide⟩

/-- C6 witness: a credentialed address redacts to the bare host:port, with
the password gone; a malformed input (empty protocol gives a leading `:`,
which the parser rejects) is returned unchanged. -/
theorem c6_witness :
    MaskAuth "socks5" "username:secretpass@proxy.example.com:1080" =
      "proxy.example.com:1080" ∧
    goContains (MaskAuth "socks5" "username:secretpass@proxy.example.com:1080")
      "secretpass" = false ∧
    MaskAuth "" "bad" = "bad" := by
  have h := c6_mask_redaction "socks5" "username:secretpass@proxy.example.com:1080"
  have hu := h.2 ⟨"socks5".data, some "username".data, some "secretpass".data,
    "proxy.example.com:1080".data⟩ (by decide)
  have h0 := c6_mask_redaction "" "bad"
  exact ⟨hu.1.trans (by decide), hu.2 "secretpass" (by decide) (by decide),
    h0.1 (by decide)⟩

/-! Claim C10: the redacted result is the bare host:port. -/

/-- C10: on every successfully parsed input MaskAuth returns exactly the
host:port — the scheme and the whole user-info component (username included)
are gone: the result is the parsed `Host` field, which can contain neither
`@` nor `/`. -/
theorem c10_bare_host (protocol s : String) (u : GoURL)
    (h : goParse (protocol ++ "://" ++ s) = some u) :
    MaskAuth protocol s = String.mk u.host ∧
    (∀ c ∈ u.host, c ≠ '@') ∧ (∀ c ∈ u.host, c ≠ '/') := by
  have hc := goParseList_hostChars h
  exact ⟨maskAuth_eq_host h,
    fun c hcm => (isHostChar_ne (hc c hcm)).2.2.2.1,
    fun c hcm => (isHostChar_ne (hc c hcm)).2.2.1⟩

/-- C10 witness: a username-only addressSpec (no password) redacts to the
bare host:port, as the repository's own test expects. -/
theorem c10_witness :
    MaskAuth "socks5" "username@proxy.example.com:1080" =
      "proxy.example.com:1080" := by
  have h := (c10_bare_host "socks5" "username@proxy.example.com:1080"
    ⟨"socks5".data, some "username".data, none, "proxy.example.com:1080".data⟩
    (by decide)).1
  exact h.trans (by decide)

/-! Claim C8: redact-then-reparse round trip. -/

/-- C8: for every addressSpec `userinfo@hostport` with embedded credentials
and syntactically valid host:port (and a well-formed protocol scheme),
redacting and re-parsing yields exactly the host:port that parsing the
original yields after dropping its user-info component. -/
theorem c8_redact_reparse (protocol ui hp : String)
    (hsch : isValidScheme protocol.data = true)
    (hui : ui.data.all isUserinfoChar = true)
    (hhp : parseHost hp.data = some hp.data) :
    (∃ u : GoURL, goParse (protocol ++ "://" ++ (ui ++ "@" ++ hp)) = some u ∧
      u.host = hp.data ∧ u.username.isSome = true) ∧
    MaskAuth protocol (ui ++ "@" ++ hp) = hp ∧
    (∃ u2 : GoURL,
      goParse (protocol ++ "://" ++ MaskAuth protocol (ui ++ "@" ++ hp)) = some u2 ∧
      u2.host = hp.data ∧ u2.username = none ∧ u2.password = none) := by
  have huic : ∀ c ∈ ui.data, isUserinfoChar c = true := List.all_eq_true.mp hui
  have hhc : ∀ c ∈ hp.data, isHostChar c = true := (parseHost_eq hhp).2
  have ha : ∀ c ∈ ui.data ++ '@' :: hp.data, c ≠ '#' ∧ c ≠ '?' ∧ c ≠ '/' := by
    intro c hc
    rcases List.mem_append.mp hc with h | h
    · have hx := isUserinfoChar_ne (huic c h)
      exact ⟨hx.1, hx.2.1, hx.2.2⟩
    · rcases List.mem_cons.mp h with rfl | h
      · exact ⟨by decide, by decide, by decide⟩
      · have hx := isHostChar_ne (hhc c h)
        exact ⟨hx.1, hx.2.1, hx.2.2.1⟩
  have hlit1 : ("://" : String).data = [':', '/', '/'] := rfl
  have hlit2 : ("@" : String).data = ['@'] := rfl
  have hdata1 : (protocol ++ "://" ++ (ui ++ "@" ++ hp)).data =
      protocol.data ++ ':' :: '/' :: '/' :: (ui.data ++ '@' :: hp.data) := by
    simp [String.data_append, hlit1, hlit2]
  have hu1 : goParse (protocol ++ "://" ++ (ui ++ "@" ++ hp)) =
      some ⟨toLowerList protocol.data, some (cutFirst ':' ui.data).1,
        if ui.data.contains ':' = true then some (cutFirst ':' ui.data).2 else none,
        hp.data⟩ := by
    show goParseList _ = _
    rw [hdata1, goParseList_authority hsch ha, parseAuthority_cred huic hhp]
    rfl
  have hm : MaskAuth protocol (ui ++ "@" ++ hp) = hp := (maskAuth_eq_host hu1).trans rfl
  have hdata2 : (protocol ++ "://" ++ hp).data =
      protocol.data ++ ':' :: '/' :: '/' :: hp.data := by
    simp [String.data_append, hlit1]
  have ha2 : ∀ c ∈ hp.data, c ≠ '#' ∧ c ≠ '?' ∧ c ≠ '/' := fun c h =>
    ⟨(isHostChar_ne (hhc c h)).1, (isHostChar_ne (hhc c h)).2.1,
      (isHostChar_ne (hhc c h)).2.2.1⟩
  have hu2 : goParse (protocol ++ "://" ++ hp) =
      some ⟨toLowerList protocol.data, none, none, hp.data⟩ := by
    show goParseList _ = _
    rw [hdata2, goParseList_authority hsch ha2, parseAuthority_nocred hhp]
    rfl
  refine ⟨⟨_, hu1, rfl, rfl⟩, hm,
    ⟨⟨toLowerList protocol.data, none, none, hp.data⟩, ?_, rfl, rfl, rfl⟩⟩
  rw [hm]
  exact hu2

/-- C8 witness: `user:pass@proxy.example.com:1080` through socks5 redacts to
`proxy.example.com:1080`, and re-parsing that yields the same host:port. -/
theorem c8_witness :
    MaskAuth "socks5" ("user:pass" ++ "@" ++ "proxy.example.com:1080") =
      "proxy.example.com:1080" ∧
    (goParse ("socks5" ++ "://" ++
        MaskAuth "socks5" ("user:pass" ++ "@" ++ "proxy.example.com:1080"))).map
      GoURL.host = some "proxy.example.com:1080".data := by
  have h := c8_redact_reparse "socks5" "user:pass" "proxy.example.com:1080"
    (by decide) (by decide) (by decide)
  obtain ⟨u2, hu2, hh, -, -⟩ := h.2.2
  refine ⟨h.2.1, ?_⟩
  rw [hu2]
  simp [hh]

end ProxyCheck
